import Mathlib

/-!
Face authenticator: shallow embedding.

A shallow embedding of the core logic of the face-authentication service
(`app.py`, `database.py`, `utils.py`).  Embedding vectors are modelled as
lists of rationals (`Vec`); the external Milvus store is modelled by its
query contract (a top-1 L2 nearest-neighbour search over a list of
records); the external face-embedding adapter is modelled as an oracle:
each uploaded file comes paired with the `Option Vec` the adapter would
return for its bytes (`none` = no face detected).  Randomness (uuid4) is
likewise modelled as an oracle input.

Milvus's `L2` metric returns the squared Euclidean distance; `d2` below is
that squared distance over `ℚ`.  It is strictly monotone in the true
Euclidean distance, so "closest record" and threshold comparisons agree
with the Euclidean ordering.
-/

/-- An embedding vector (`numpy` float array in the source; rationals here). -/
abbrev Vec := List ℚ

/-- One Milvus row of the `face_recognition_system` collection
(`database.py` schema: `user_uuid`, `name`, `human_id`, `embedding`;
the auto-assigned `pk` plays no role in the modelled operations). -/
structure Record where
  user_uuid : String
  name : String
  human_id : String
  embedding : Vec
deriving Repr, DecidableEq

/-- The sequential-ID metadata: the in-memory `metadata["last_user_id"]`
and the value currently persisted in `instance/metadata.json`. -/
structure MetaState where
  last_user_id : Nat
  disk_last_user_id : Nat
deriving Repr, DecidableEq

/-- Model of `database.save_metadata`: writes the in-memory counter to its file. -/
def save_metadata (m : MetaState) : MetaState :=
  { m with disk_last_user_id := m.last_user_id }

/-- Model of `database.get_next_human_id`: increments `metadata["last_user_id"]`,
persists it via `save_metadata`, and returns `"fr" + counter`. -/
def get_next_human_id (m : MetaState) : String × MetaState :=
  let m1 : MetaState := { m with last_user_id := m.last_user_id + 1 }
  let m2 := save_metadata m1
  ("fr" ++ toString m2.last_user_id, m2)

/-- The state stepped by one call of the sequential-ID allocator. -/
def nextMeta (m : MetaState) : MetaState :=
  (get_next_human_id m).2

/-- Whole persistent state: the Milvus collection plus the ID metadata. -/
structure DBState where
  store : List Record
  meta : MetaState
deriving Repr, DecidableEq

/-- Model of `database.add_user`: generates a uuid (here supplied as the oracle
argument `uuid`), allocates the next human id, inserts one row, flushes,
and returns `(user_uuid, human_id)`. -/
def add_user (name : String) (avg_embedding : Vec) (uuid : String)
    (s : DBState) : (String × String) × DBState :=
  let p := get_next_human_id s.meta
  ((uuid, p.1),
   { store := s.store ++ [⟨uuid, name, p.1, avg_embedding⟩], meta := p.2 })

/-- Squared L2 distance, the value Milvus's `L2` metric reports. -/
def d2 (a b : Vec) : ℚ :=
  (List.zipWith (fun x y => (x - y) * (x - y)) a b).sum

/-- The Milvus `collection.search(..., limit=1)` contract: on a non-empty
collection, return a record minimising `d2` to the query together with
that distance (ties resolved towards the earlier row; the source leaves
tie-breaking to the store). -/
def searchTop1 (q : Vec) : List Record → Option (Record × ℚ)
  | [] => none
  | r :: rs =>
    match searchTop1 q rs with
    | none => some (r, d2 q r.embedding)
    | some (r2, dist2) =>
      if d2 q r.embedding ≤ dist2 then some (r, d2 q r.embedding)
      else some (r2, dist2)

/-- Model of `database.find_similar_user`: top-1 search; if the best distance is
strictly below the threshold return `(user_uuid, name, human_id, distance)`,
otherwise (or on an empty collection) return the all-`None` tuple,
modelled as `none`. -/
def find_similar_user (embedding : Vec) (threshold : ℚ)
    (store : List Record) : Option (String × String × String × ℚ) :=
  match searchTop1 embedding store with
  | none => none
  | some (r, dist) =>
    if dist < threshold then some (r.user_uuid, r.name, r.human_id, dist)
    else none

/-- pymilvus `MutationResult` as consumed by `delete_user`: it exposes the
attribute `delete_count`. -/
structure MutationResult where
  delete_count : Nat
deriving Repr, DecidableEq

/-- Python attribute access on a `MutationResult`: only `delete_count`
exists; any other attribute name raises `AttributeError`. -/
def getattrMutationResult (r : MutationResult) (attr : String) :
    Except String Nat :=
  if attr = "delete_count" then Except.ok r.delete_count
  else Except.error ("AttributeError: " ++ attr)

/-- The Milvus `collection.delete(expr)` contract for the expression
`user_uuid == '<uuid>'`: remove every matching row and report how many
were removed. -/
def milvusDelete (uuid : String) (store : List Record) :
    MutationResult × List Record :=
  let remaining := store.filter (fun r => r.user_uuid ≠ uuid)
  (⟨store.length - remaining.length⟩, remaining)

/-- Model of `database.delete_user`: delete by uuid, flush, then evaluate
`result.delete_coun` — the source misspells the `delete_count` attribute,
so the final attribute access is modelled through `getattrMutationResult`
with the literal attribute name the source uses. -/
def delete_user (uuid : String) (store : List Record) :
    Except String Nat × List Record :=
  let p := milvusDelete uuid store
  (getattrMutationResult p.1 "delete_coun", p.2)

/-- Element-wise vector sum (`numpy` broadcast addition). -/
def vecAdd (a b : Vec) : Vec := List.zipWith (· + ·) a b

/-- Sum of a list of equal-length vectors, as `np.mean(_, axis=0)`
accumulates before dividing. -/
def vecSum : List Vec → Vec
  | [] => []
  | [v] => v
  | v :: w :: rest => vecAdd v (vecSum (w :: rest))

/-- Model of `np.mean(embeddings, axis=0)`: element-wise sum divided by the count. -/
def vecMean (vs : List Vec) : Vec :=
  (vecSum vs).map (fun x => x / (vs.length : ℚ))

/-- The spec's words for the aggregator ("element-wise arithmetic mean"):
component `j` of the signature is the mean of the `j`-th components. -/
def specElementwiseMean (vs : List Vec) (j : Nat) : ℚ :=
  (vs.map (fun v => v.getD j 0)).sum / (vs.length : ℚ)

/-- Result of `api_register`'s image loop: either the collected embeddings,
or the filename of the first file with no detectable face.  Both carry the
list of filenames the embedding adapter was invoked on, in order. -/
inductive LoopResult where
  | ok (embs : List Vec) (calls : List String)
  | noFace (fn : String) (calls : List String)
deriving Repr, DecidableEq

/-- The adapter invocations recorded by a loop result. -/
def LoopResult.calls : LoopResult → List String
  | .ok _ c => c
  | .noFace _ c => c

/-- The `for image_file in image_files` loop of `api_register`: files whose
`filename` is the empty string are skipped (`continue`) without invoking
the adapter; a `None` embedding aborts with that file's name; otherwise
the embedding is appended. -/
def processImages : List (String × Option Vec) → LoopResult
  | [] => .ok [] []
  | (fn, e) :: rest =>
    if fn = "" then processImages rest
    else
      match e with
      | none => .noFace fn [fn]
      | some v =>
        match processImages rest with
        | .ok embs calls => .ok (v :: embs) (fn :: calls)
        | .noFace f calls => .noFace f (fn :: calls)

/-- The observable outcome of `api_register`, one constructor per `return`
site (400-error bodies vs the 201 success body). -/
inductive RegResult where
  | errMissingName
  | errImageCount (n : Nat)
  | errNoFace (fn : String)
  | errTooFew
  | success (uuid : String) (human : String)
deriving Repr, DecidableEq

/-- Outcome of `api_register`: the result, the database state after the call, and the
filenames the embedding adapter was invoked on. -/
structure RegOutcome where
  result : RegResult
  state : DBState
  calls : List String
deriving Repr, DecidableEq

/-- Model of `app.api_register`: `name?` is the form's name field (`none` if
absent), `files` pairs each uploaded file's `filename` with the embedding
the adapter would return for its bytes, `uuid` is the `uuid.uuid4()`
oracle.  Checks, in source order: missing/empty name; image count in
`[2,4]`; the embedding loop; `len(embeddings) < 2`; then averages and
inserts via `add_user`. -/
def api_register (name? : Option String) (files : List (String × Option Vec))
    (uuid : String) (s : DBState) : RegOutcome :=
  match name? with
  | none => ⟨.errMissingName, s, []⟩
  | some nm =>
    if nm = "" then ⟨.errMissingName, s, []⟩
    else if 2 ≤ files.length ∧ files.length ≤ 4 then
      match processImages files with
      | .noFace fn calls => ⟨.errNoFace fn, s, calls⟩
      | .ok embs calls =>
        if embs.length < 2 then ⟨.errTooFew, s, calls⟩
        else
          let avg := vecMean embs
          let p := add_user nm avg uuid s
          ⟨.success p.1.1 p.1.2, p.2, calls⟩
    else ⟨.errImageCount files.length, s, []⟩

/-- The fixed authentication threshold `DISTANCE_THRESHOLD = 1.1`. -/
def DISTANCE_THRESHOLD : ℚ := 11 / 10

/-- The observable outcome of `api_authenticate`: the 400 missing-image
error, or one of the three 200 bodies (`authenticated=false` "No face
detected", `authenticated=true` with the match's fields, or
`authenticated=false` "User not recognized"). -/
inductive AuthResult where
  | errMissingImage
  | noFace
  | authOk (uuid name human : String) (dist : ℚ)
  | notRecognized
deriving Repr, DecidableEq

/-- Model of `app.api_authenticate`: `image?` is `none` when no image field was
sent, `some e` with `e` the adapter's result otherwise.  Returns the
outcome paired with whether `find_similar_user` (the store) was queried.
The source gates the success body on the truthiness of `name`
(`if name:`), so a matched record with an empty name string falls through
to "User not recognized". -/
def api_authenticate (image? : Option (Option Vec)) (store : List Record) :
    AuthResult × Bool :=
  match image? with
  | none => (.errMissingImage, false)
  | some none => (.noFace, false)
  | some (some emb) =>
    match find_similar_user emb DISTANCE_THRESHOLD store with
    | some (u, n, h, dist) =>
      if n ≠ "" then (.authOk u n h dist, true) else (.notRecognized, true)
    | none => (.notRecognized, true)

/-! ## Theorems -/

/-- C3: the claim says deletion is idempotent and total: a nonexistent
id yields count 0 (success = false at the boundary), a matching id yields
the number removed (success = true).  The source instead evaluates
`result.delete_coun` — a misspelling of the pymilvus attribute
`delete_count` — so every call of `delete_user`, matching or not, raises
`AttributeError` instead of returning a count.  This theorem evaluates the
model on every input, and in particular on the claim's nonexistent-id case
with an empty store. -/
theorem delete_user_always_raises :
    (∀ uuid store, (delete_user uuid store).1 =
      Except.error ("AttributeError: " ++ "delete_coun")) ∧
    (delete_user "nonexistent" []).1 =
      Except.error ("AttributeError: " ++ "delete_coun") := by
  constructor
  · intro uuid store
    rfl
  · rfl

/-- C4: one call of the sequential ID allocator increments the counter
by exactly one, the state handed back has its new counter value persisted
(`disk_last_user_id` equals the counter when the label is returned), the
label is `"fr" + counter`, the counter strictly grew (never rewinds), and
after `n` further calls the counter is the original plus `n`, with the
label of the `k`-th subsequent call embedding the strictly increasing
value `last_user_id + k + 1` — so every label strictly exceeds all
previously issued ones. -/
theorem get_next_human_id_monotone (m : MetaState) :
    (get_next_human_id m).2.last_user_id = m.last_user_id + 1 ∧
    (get_next_human_id m).2.disk_last_user_id =
      (get_next_human_id m).2.last_user_id ∧
    (get_next_human_id m).1 =
      "fr" ++ toString (m.last_user_id + 1) ∧
    m.last_user_id < (get_next_human_id m).2.last_user_id ∧
    (∀ n : Nat, (nextMeta^[n] m).last_user_id = m.last_user_id + n) ∧
    (∀ k : Nat, (get_next_human_id (nextMeta^[k] m)).1 =
      "fr" ++ toString (m.last_user_id + k + 1)) := by
  have hiter : ∀ n : Nat, ∀ m0 : MetaState,
      (nextMeta^[n] m0).last_user_id = m0.last_user_id + n := by
    intro n
    induction n with
    | zero => intro m0; simp
    | succ k ih =>
      intro m0
      rw [Function.iterate_succ_apply]
      rw [ih (nextMeta m0)]
      simp [nextMeta, get_next_human_id, save_metadata]
      omega
  refine ⟨rfl, rfl, rfl, Nat.lt_succ_self _, fun n => hiter n m, ?_⟩
  intro k
  simp [get_next_human_id, save_metadata, hiter k m]

/-- C7: an authentication request whose image yields no face from the
adapter produces the normal (non-error) outcome `authenticated=false`
with the "No face detected" reason, and the store is never queried
(second component `false`); the outcome is distinct from the request-level
`errMissingImage` error. -/
theorem api_authenticate_no_face (store : List Record) :
    api_authenticate (some none) store = (AuthResult.noFace, false) ∧
    AuthResult.noFace ≠ AuthResult.errMissingImage := by
  exact ⟨rfl, by simp⟩

/-- One-step unfolding of `searchTop1` on a cons cell. -/
lemma searchTop1_cons (q : Vec) (r : Record) (rs : List Record) :
    searchTop1 q (r :: rs) =
      match searchTop1 q rs with
      | none => some (r, d2 q r.embedding)
      | some (r2, dist2) =>
        if d2 q r.embedding ≤ dist2 then some (r, d2 q r.embedding)
        else some (r2, dist2) := rfl

/-- On a non-empty store, `searchTop1` returns a member record together
with its exact squared distance, and that distance is minimal over the
store. -/
lemma searchTop1_min (q : Vec) :
    ∀ store : List Record, store ≠ [] →
    ∃ r dist, searchTop1 q store = some (r, dist) ∧ r ∈ store ∧
      dist = d2 q r.embedding ∧
      ∀ r2 ∈ store, dist ≤ d2 q r2.embedding := by
  intro store
  induction store with
  | nil => intro h; exact absurd rfl h
  | cons r rs ih =>
    intro _
    by_cases hrs : rs = []
    · subst hrs
      refine ⟨r, d2 q r.embedding, rfl, List.mem_cons_self r _, rfl, ?_⟩
      intro r2 hr2
      rcases List.mem_singleton.mp hr2 with rfl
      exact le_refl _
    · obtain ⟨r2, dist2, hsr, hmem, hdval, hmin⟩ := ih hrs
      by_cases hle : d2 q r.embedding ≤ dist2
      · refine ⟨r, d2 q r.embedding, ?_, List.mem_cons_self r _, rfl, ?_⟩
        · rw [searchTop1_cons, hsr]
          simp [hle]
        · intro r3 hr3
          rcases List.mem_cons.mp hr3 with rfl | hr3
          · exact le_refl _
          · exact le_trans hle (hmin r3 hr3)
      · refine ⟨r2, dist2, ?_, List.mem_cons_of_mem r hmem, hdval, ?_⟩
        · rw [searchTop1_cons, hsr]
          simp [hle]
        · intro r3 hr3
          rcases List.mem_cons.mp hr3 with rfl | hr3
          · exact le_of_lt (lt_of_not_le hle)
          · exact hmin r3 hr3

/-- C2: on an empty store `find_similar_user` reports no match; on a
non-empty store it reports the single closest record (minimal squared-L2
distance over all stored records, with its exact distance) precisely when
that distance is strictly below the threshold, and the all-`None`
no-match tuple otherwise. -/
theorem find_similar_user_nearest (q : Vec) (t : ℚ) (store : List Record) :
    (store = [] → find_similar_user q t store = none) ∧
    (store ≠ [] → ∃ r dist,
      r ∈ store ∧ dist = d2 q r.embedding ∧
      (∀ r2 ∈ store, dist ≤ d2 q r2.embedding) ∧
      find_similar_user q t store =
        (if dist < t then some (r.user_uuid, r.name, r.human_id, dist)
         else none)) := by
  constructor
  · rintro rfl; rfl
  · intro hne
    obtain ⟨r, dist, hs, hmem, hdval, hmin⟩ := searchTop1_min q store hne
    exact ⟨r, dist, hmem, hdval, hmin, by simp [find_similar_user, hs]⟩

/-- Witness for C2 at a concrete two-record store: the closer record is
returned with its distance below the threshold. -/
theorem find_similar_user_nearest_witness :
    ([⟨"u1", "alice", "fr1", [0]⟩, ⟨"u2", "bob", "fr2", [5]⟩] :
        List Record) ≠ [] ∧
    ∃ r dist,
      r ∈ ([⟨"u1", "alice", "fr1", [0]⟩, ⟨"u2", "bob", "fr2", [5]⟩] :
        List Record) ∧
      dist = d2 [1] r.embedding ∧
      (∀ r2 ∈ ([⟨"u1", "alice", "fr1", [0]⟩, ⟨"u2", "bob", "fr2", [5]⟩] :
        List Record), dist ≤ d2 [1] r2.embedding) ∧
      find_similar_user [1] 2 [⟨"u1", "alice", "fr1", [0]⟩,
          ⟨"u2", "bob", "fr2", [5]⟩] =
        (if dist < 2 then some (r.user_uuid, r.name, r.human_id, dist)
         else none) :=
  ⟨by decide,
   (find_similar_user_nearest [1] 2
     [⟨"u1", "alice", "fr1", [0]⟩, ⟨"u2", "bob", "fr2", [5]⟩]).2
     (by decide)⟩

/-- One-step unfolding of `processImages` on a cons cell. -/
lemma processImages_cons (fn : String) (e : Option Vec)
    (rest : List (String × Option Vec)) :
    processImages ((fn, e) :: rest) =
      (if fn = "" then processImages rest
       else
        match e with
        | none => .noFace fn [fn]
        | some v =>
          match processImages rest with
          | .ok embs calls => .ok (v :: embs) (fn :: calls)
          | .noFace f calls => .noFace f (fn :: calls)) := rfl

/-- If the image loop aborts with filename `fn`, then some uploaded file
has exactly that (non-empty) filename and a `None` embedding. -/
lemma processImages_noFace_sound :
    ∀ (files : List (String × Option Vec)) (fn : String)
      (calls : List String),
    processImages files = .noFace fn calls →
    ∃ p ∈ files, p.1 = fn ∧ p.1 ≠ "" ∧ p.2 = none := by
  intro files
  induction files with
  | nil => intro fn calls h; simp [processImages] at h
  | cons p rest ih =>
    intro fn calls h
    obtain ⟨pfn, pe⟩ := p
    by_cases hempty : pfn = ""
    · rw [processImages_cons, if_pos hempty] at h
      obtain ⟨q, hq, h1, h2, h3⟩ := ih fn calls h
      exact ⟨q, List.mem_cons_of_mem _ hq, h1, h2, h3⟩
    · rw [processImages_cons, if_neg hempty] at h
      cases pe with
      | none =>
        injection h with h1 h2
        exact ⟨(pfn, none), List.mem_cons_self _ _, h1, hempty, rfl⟩
      | some v =>
        cases hrest : processImages rest with
        | ok embs cs =>
          simp only [hrest] at h
          exact absurd h (by simp)
        | noFace f cs =>
          simp only [hrest] at h
          injection h with h1 h2
          subst h1
          obtain ⟨q, hq, hq1, hq2, hq3⟩ := ih f cs hrest
          exact ⟨q, List.mem_cons_of_mem _ hq, hq1, hq2, hq3⟩

/-- If some uploaded file has a non-empty filename and a `None` embedding,
the image loop aborts with a no-face result. -/
lemma processImages_noFace_complete :
    ∀ files : List (String × Option Vec),
    (∃ p ∈ files, p.1 ≠ "" ∧ p.2 = none) →
    ∃ fn calls, processImages files = .noFace fn calls := by
  intro files
  induction files with
  | nil => rintro ⟨p, hp, _⟩; simp at hp
  | cons p rest ih =>
    rintro ⟨q, hq, hq1, hq2⟩
    obtain ⟨pfn, pe⟩ := p
    by_cases hempty : pfn = ""
    · have hqrest : q ∈ rest := by
        rcases List.mem_cons.mp hq with rfl | h
        · exact absurd hempty hq1
        · exact h
      obtain ⟨fn, calls, hres⟩ := ih ⟨q, hqrest, hq1, hq2⟩
      exact ⟨fn, calls, by rw [processImages_cons, if_pos hempty]; exact hres⟩
    · cases pe with
      | none =>
        exact ⟨pfn, [pfn], by rw [processImages_cons, if_neg hempty]⟩
      | some v =>
        have hqrest : q ∈ rest := by
          rcases List.mem_cons.mp hq with rfl | h
          · simp at hq2
          · exact h
        obtain ⟨fn, calls, hres⟩ := ih ⟨q, hqrest, hq1, hq2⟩
        refine ⟨fn, pfn :: calls, ?_⟩
        rw [processImages_cons, if_neg hempty]
        simp only [hres]

/-- On success the collected embeddings are exactly the adapter results of
the files with non-empty filenames, in order. -/
lemma processImages_ok_embs :
    ∀ (files : List (String × Option Vec)) (embs : List Vec)
      (calls : List String),
    processImages files = .ok embs calls →
    embs = files.filterMap (fun p => if p.1 = "" then none else p.2) := by
  intro files
  induction files with
  | nil =>
    intro embs calls h
    simp [processImages] at h
    simp [h.1]
  | cons p rest ih =>
    intro embs calls h
    obtain ⟨pfn, pe⟩ := p
    by_cases hempty : pfn = ""
    · rw [processImages_cons, if_pos hempty] at h
      simp [List.filterMap_cons, hempty, ih embs calls h]
    · rw [processImages_cons, if_neg hempty] at h
      cases pe with
      | none => exact absurd h (by simp)
      | some v =>
        cases hrest : processImages rest with
        | noFace f cs =>
          simp only [hrest] at h
          exact absurd h (by simp)
        | ok embs2 cs =>
          simp only [hrest] at h
          injection h with h1 h2
          subst h1
          simp [List.filterMap_cons, hempty, ih embs2 cs hrest]

/-- Every filename the loop hands to the embedding adapter is non-empty:
empty-filename uploads are skipped without an adapter invocation. -/
lemma processImages_calls_nonempty :
    ∀ files : List (String × Option Vec),
    ∀ fn ∈ (processImages files).calls, fn ≠ "" := by
  intro files
  induction files with
  | nil => intro fn h; simp [processImages, LoopResult.calls] at h
  | cons p rest ih =>
    intro fn h
    obtain ⟨pfn, pe⟩ := p
    by_cases hempty : pfn = ""
    · rw [processImages_cons, if_pos hempty] at h
      exact ih fn h
    · rw [processImages_cons, if_neg hempty] at h
      cases pe with
      | none =>
        simp only [LoopResult.calls, List.mem_singleton] at h
        subst h; exact hempty
      | some v =>
        cases hrest : processImages rest with
        | ok embs cs =>
          simp only [hrest, LoopResult.calls, List.mem_cons] at h
          rcases h with rfl | h
          · exact hempty
          · exact ih fn (by simp [hrest, LoopResult.calls, h])
        | noFace f cs =>
          simp only [hrest, LoopResult.calls, List.mem_cons] at h
          rcases h with rfl | h
          · exact hempty
          · exact ih fn (by simp [hrest, LoopResult.calls, h])

/-- C5: if enrollment validation passes (non-empty name, 2–4 files)
but some file with a non-empty filename yields no face from the adapter,
then the whole enrollment fails with a no-face error naming a failing
file's filename, and the database state — the store and the label
counter alike — is exactly the state before the call: no record is
inserted and no human label is allocated. -/
theorem api_register_no_face_aborts (nm uuid : String) (s : DBState)
    (files : List (String × Option Vec))
    (hnm : nm ≠ "") (hlo : 2 ≤ files.length) (hhi : files.length ≤ 4)
    (hfail : ∃ p ∈ files, p.1 ≠ "" ∧ p.2 = none) :
    ∃ fn calls,
      api_register (some nm) files uuid s =
        ⟨RegResult.errNoFace fn, s, calls⟩ ∧
      ∃ p ∈ files, p.1 = fn ∧ p.1 ≠ "" ∧ p.2 = none := by
  obtain ⟨fn, calls, hpi⟩ := processImages_noFace_complete files hfail
  obtain ⟨p, hp, h1, h2, h3⟩ := processImages_noFace_sound files fn calls hpi
  refine ⟨fn, calls, ?_, p, hp, h1, h2, h3⟩
  simp only [api_register, if_neg hnm, if_pos (And.intro hlo hhi), hpi]

/-- Witness for C5: two files, the second of which yields no face. -/
theorem api_register_no_face_aborts_witness :
    ("x" ≠ "" ∧
     2 ≤ ([("a", some [1]), ("b", none)] :
        List (String × Option Vec)).length ∧
     ([("a", some [1]), ("b", none)] :
        List (String × Option Vec)).length ≤ 4 ∧
     (∃ p ∈ ([("a", some [1]), ("b", none)] :
        List (String × Option Vec)), p.1 ≠ "" ∧ p.2 = none)) ∧
    ∃ fn calls,
      api_register (some "x") [("a", some [1]), ("b", none)] "u1"
          ⟨[], 0, 0⟩ =
        ⟨RegResult.errNoFace fn, ⟨[], 0, 0⟩, calls⟩ ∧
      ∃ p ∈ ([("a", some [1]), ("b", none)] :
        List (String × Option Vec)), p.1 = fn ∧ p.1 ≠ "" ∧ p.2 = none :=
  ⟨by decide,
   api_register_no_face_aborts "x" "u1" ⟨[], 0, 0⟩
     [("a", some [1]), ("b", none)]
     (by decide) (by decide) (by decide) (by decide)⟩

/-- C6: a missing or empty name, or an image count outside `[2,4]`,
makes enrollment fail immediately with the corresponding validation
error: the database state is unchanged (no insert, no label allocation)
and the embedding adapter is never invoked (the call list is empty). -/
theorem api_register_validation (name? : Option String)
    (files : List (String × Option Vec)) (uuid : String) (s : DBState)
    (hbad : name? = none ∨ name? = some "" ∨
            files.length < 2 ∨ 4 < files.length) :
    (api_register name? files uuid s).state = s ∧
    (api_register name? files uuid s).calls = [] ∧
    ((api_register name? files uuid s).result = RegResult.errMissingName ∨
     (api_register name? files uuid s).result =
       RegResult.errImageCount files.length) := by
  rcases hbad with rfl | rfl | hcnt | hcnt
  · exact ⟨rfl, rfl, Or.inl rfl⟩
  · exact ⟨rfl, rfl, Or.inl rfl⟩
  · cases name? with
    | none => exact ⟨rfl, rfl, Or.inl rfl⟩
    | some nm =>
      by_cases hnm : nm = ""
      · subst hnm; exact ⟨rfl, rfl, Or.inl rfl⟩
      · have hc : ¬(2 ≤ files.length ∧ files.length ≤ 4) := by omega
        simp [api_register, hnm, hc]
  · cases name? with
    | none => exact ⟨rfl, rfl, Or.inl rfl⟩
    | some nm =>
      by_cases hnm : nm = ""
      · subst hnm; exact ⟨rfl, rfl, Or.inl rfl⟩
      · have hc : ¬(2 ≤ files.length ∧ files.length ≤ 4) := by omega
        simp [api_register, hnm, hc]

/-- Witness for C6: five uploaded files (count above four). -/
theorem api_register_validation_witness :
    ((some "x" : Option String) = none ∨ (some "x" : Option String) = some "" ∨
     ([("a", some [1]), ("b", some [1]), ("c", some [1]), ("d", some [1]),
       ("e", some [1])] : List (String × Option Vec)).length < 2 ∨
     4 < ([("a", some [1]), ("b", some [1]), ("c", some [1]),
       ("d", some [1]), ("e", some [1])] :
         List (String × Option Vec)).length) ∧
    ((api_register (some "x")
        [("a", some [1]), ("b", some [1]), ("c", some [1]), ("d", some [1]),
         ("e", some [1])] "u1" ⟨[], 0, 0⟩).state = ⟨[], 0, 0⟩ ∧
     (api_register (some "x")
        [("a", some [1]), ("b", some [1]), ("c", some [1]), ("d", some [1]),
         ("e", some [1])] "u1" ⟨[], 0, 0⟩).calls = [] ∧
     ((api_register (some "x")
        [("a", some [1]), ("b", some [1]), ("c", some [1]), ("d", some [1]),
         ("e", some [1])] "u1" ⟨[], 0, 0⟩).result =
          RegResult.errMissingName ∨
      (api_register (some "x")
        [("a", some [1]), ("b", some [1]), ("c", some [1]), ("d", some [1]),
         ("e", some [1])] "u1" ⟨[], 0, 0⟩).result =
          RegResult.errImageCount
            ([("a", some [1]), ("b", some [1]), ("c", some [1]),
              ("d", some [1]), ("e", some [1])] :
                List (String × Option Vec)).length)) :=
  ⟨by decide,
   api_register_validation (some "x")
     [("a", some [1]), ("b", some [1]), ("c", some [1]), ("d", some [1]),
      ("e", some [1])] "u1" ⟨[], 0, 0⟩ (by decide)⟩

/-- Component access distributes over element-wise addition of
equal-length vectors (with default 0 outside the common length). -/
lemma vecAdd_getD :
    ∀ (a b : Vec), a.length = b.length → ∀ j : Nat,
    (vecAdd a b).getD j 0 = a.getD j 0 + b.getD j 0 := by
  intro a
  induction a with
  | nil =>
    intro b hb j
    have : b = [] := List.eq_nil_of_length_eq_zero hb.symm
    subst this
    simp [vecAdd]
  | cons x xs ih =>
    intro b hb j
    cases b with
    | nil => simp at hb
    | cons y ys =>
      cases j with
      | zero => simp [vecAdd]
      | succ k =>
        have hxy : xs.length = ys.length := by
          simpa using hb
        simpa [vecAdd] using ih ys hxy k

/-- Applying `vecSum` to a non-empty family of length-`D` vectors has length `D`. -/
lemma vecSum_length :
    ∀ (vs : List Vec) (D : Nat), vs ≠ [] → (∀ v ∈ vs, v.length = D) →
    (vecSum vs).length = D := by
  intro vs
  induction vs with
  | nil => intro D h _; exact absurd rfl h
  | cons v rest ih =>
    intro D _ hd
    cases rest with
    | nil => exact hd v (List.mem_cons_self _ _)
    | cons w ws =>
      have hlen : (vecSum (w :: ws)).length = D :=
        ih D (by simp) (fun u hu => hd u (List.mem_cons_of_mem _ hu))
      have hv : v.length = D := hd v (List.mem_cons_self _ _)
      show (vecAdd v (vecSum (w :: ws))).length = D
      simp [vecAdd, hlen, hv]

/-- Each component of `vecSum` is the sum of the components. -/
lemma vecSum_getD :
    ∀ (vs : List Vec) (D : Nat), vs ≠ [] → (∀ v ∈ vs, v.length = D) →
    ∀ j : Nat,
    (vecSum vs).getD j 0 = (vs.map (fun v => v.getD j 0)).sum := by
  intro vs
  induction vs with
  | nil => intro D h _; exact absurd rfl h
  | cons v rest ih =>
    intro D _ hd j
    cases rest with
    | nil => simp [vecSum]
    | cons w ws =>
      have hrest : ∀ u ∈ w :: ws, u.length = D :=
        fun u hu => hd u (List.mem_cons_of_mem _ hu)
      have hlen : v.length = (vecSum (w :: ws)).length := by
        rw [hd v (List.mem_cons_self _ _), vecSum_length (w :: ws) D (by simp) hrest]
      show (vecAdd v (vecSum (w :: ws))).getD j 0 = _
      rw [vecAdd_getD v (vecSum (w :: ws)) hlen j, ih D (by simp) hrest j]
      simp

/-- Component access distributes over `map (· / c)` with default 0. -/
lemma getD_map_div :
    ∀ (l : List ℚ) (c : ℚ) (j : Nat),
    (l.map (fun x => x / c)).getD j 0 = l.getD j 0 / c := by
  intro l
  induction l with
  | nil => intro c j; simp
  | cons x xs ih =>
    intro c j
    cases j with
    | zero => simp
    | succ k => simpa using ih c k

/-- The function `vecMean` (the embedding of `np.mean(_, axis=0)`) agrees component-wise
with the spec's element-wise arithmetic mean. -/
lemma vecMean_getD (vs : List Vec) (D : Nat) (hne : vs ≠ [])
    (hd : ∀ v ∈ vs, v.length = D) (j : Nat) :
    (vecMean vs).getD j 0 = specElementwiseMean vs j := by
  unfold vecMean specElementwiseMean
  rw [getD_map_div, vecSum_getD vs D hne hd j]

/-- The function `vecMean` preserves the common vector length. -/
lemma vecMean_length (vs : List Vec) (D : Nat) (hne : vs ≠ [])
    (hd : ∀ v ∈ vs, v.length = D) : (vecMean vs).length = D := by
  unfold vecMean
  rw [List.length_map]
  exact vecSum_length vs D hne hd

/-- When every check passes, `api_register` returns the full success
outcome: the fresh uuid and label, the store with exactly the one new row
appended, the incremented-and-persisted counter, and the adapter call
list. -/
lemma api_register_success_eq (nm : String)
    (files : List (String × Option Vec)) (uuid : String) (s : DBState)
    (embs : List Vec) (calls : List String)
    (hnm : nm ≠ "") (hlo : 2 ≤ files.length) (hhi : files.length ≤ 4)
    (hpi : processImages files = .ok embs calls) (h2 : 2 ≤ embs.length) :
    api_register (some nm) files uuid s =
      ⟨RegResult.success uuid ("fr" ++ toString (s.meta.last_user_id + 1)),
       ⟨s.store ++ [⟨uuid, nm, "fr" ++ toString (s.meta.last_user_id + 1),
          vecMean embs⟩],
        ⟨s.meta.last_user_id + 1, s.meta.last_user_id + 1⟩⟩,
       calls⟩ := by
  simp only [api_register, if_neg hnm, if_pos (And.intro hlo hhi), hpi]
  rw [if_neg (by omega)]
  rfl

/-- Inversion: a success outcome of `api_register` means every check
passed, and determines the returned uuid and label, the inserted row and
the new store exactly. -/
lemma api_register_success_inv (name? : Option String)
    (files : List (String × Option Vec)) (uuid : String) (s : DBState)
    (u hl : String)
    (hres : (api_register name? files uuid s).result =
      RegResult.success u hl) :
    ∃ nm embs calls,
      name? = some nm ∧ nm ≠ "" ∧
      2 ≤ files.length ∧ files.length ≤ 4 ∧
      processImages files = .ok embs calls ∧ 2 ≤ embs.length ∧
      u = uuid ∧ hl = "fr" ++ toString (s.meta.last_user_id + 1) ∧
      api_register name? files uuid s =
        ⟨RegResult.success uuid hl,
         ⟨s.store ++ [⟨uuid, nm, hl, vecMean embs⟩],
          ⟨s.meta.last_user_id + 1, s.meta.last_user_id + 1⟩⟩,
         calls⟩ := by
  cases name? with
  | none => exact absurd hres (by simp [api_register])
  | some nm =>
    by_cases hnm : nm = ""
    · subst hnm
      exact absurd hres (by simp [api_register])
    · by_cases hc : 2 ≤ files.length ∧ files.length ≤ 4
      · cases hpi : processImages files with
        | noFace fn calls =>
          simp only [api_register, if_neg hnm, if_pos hc, hpi] at hres
          exact absurd hres (by simp)
        | ok embs calls =>
          by_cases h2 : embs.length < 2
          · simp only [api_register, if_neg hnm, if_pos hc, hpi,
              if_pos h2] at hres
            exact absurd hres (by simp)
          · have heq := api_register_success_eq nm files uuid s embs calls
              hnm hc.1 hc.2 hpi (by omega)
            rw [heq] at hres
            simp only at hres
            injection hres with hu hhl
            subst hu
            subst hhl
            exact ⟨nm, embs, calls, rfl, hnm, hc.1, hc.2, rfl, by omega,
              rfl, rfl, heq⟩
      · simp only [api_register, if_neg hnm, if_neg hc] at hres
        exact absurd hres (by simp)

/-- C1: any successful enrollment whose per-image embeddings all have
dimension `D` stores exactly one new record whose signature is the
element-wise arithmetic mean of the `k` collected embeddings
(`k ∈ [2,4]`): the code's `np.mean(embeddings, axis=0)` value agrees in
every component with the spec's element-wise mean
(`specElementwiseMean`).  Exact rational arithmetic stands in for the
floating-point tolerance. -/
theorem api_register_signature_mean (name? : Option String)
    (files : List (String × Option Vec)) (uuid : String) (s : DBState)
    (u hl : String) (D : Nat)
    (hsucc : (api_register name? files uuid s).result =
      RegResult.success u hl)
    (hdim : ∀ p ∈ files, ∀ v ∈ p.2, List.length v = D) :
    ∃ embs : List Vec,
      processImages files =
        .ok embs (api_register name? files uuid s).calls ∧
      2 ≤ embs.length ∧ embs.length ≤ 4 ∧
      (∀ v ∈ embs, v.length = D) ∧
      ∃ r : Record,
        (api_register name? files uuid s).state.store = s.store ++ [r] ∧
        r.embedding = vecMean embs ∧
        r.embedding.length = D ∧
        ∀ j : Nat, r.embedding.getD j 0 = specElementwiseMean embs j := by
  obtain ⟨nm, embs, calls, hname, hnm, hlo, hhi, hpi, h2, hu, hhl, heq⟩ :=
    api_register_success_inv name? files uuid s u hl hsucc
  have hembsD : ∀ v ∈ embs, v.length = D := by
    intro v hv
    rw [processImages_ok_embs files embs calls hpi] at hv
    obtain ⟨p, hp, hpv⟩ := List.mem_filterMap.mp hv
    by_cases hp1 : p.1 = ""
    · rw [if_pos hp1] at hpv
      exact absurd hpv (by simp)
    · rw [if_neg hp1] at hpv
      exact hdim p hp v (Option.mem_def.mpr hpv)
  have hne : embs ≠ [] := by
    intro h
    rw [h] at h2
    simp at h2
  have hlen4 : embs.length ≤ 4 := by
    rw [processImages_ok_embs files embs calls hpi]
    exact le_trans (List.length_filterMap_le _ _) hhi
  refine ⟨embs, ?_, h2, hlen4, hembsD,
    ⟨uuid, nm, hl, vecMean embs⟩, ?_, rfl, ?_, ?_⟩
  · rw [heq]
    exact hpi
  · rw [heq]
  · exact vecMean_length embs D hne hembsD
  · intro j
    exact vecMean_getD embs D hne hembsD j

/-- Witness for C1: two 2-dimensional embeddings `[1,1]` and `[3,5]`;
the stored signature is their component-wise mean `[2,3]`. -/
theorem api_register_signature_mean_witness :
    ((api_register (some "alice") [("a", some [1, 1]), ("b", some [3, 5])]
        "u1" ⟨[], 0, 0⟩).result = RegResult.success "u1" "fr1" ∧
     (∀ p ∈ ([("a", some [1, 1]), ("b", some [3, 5])] :
        List (String × Option Vec)), ∀ v ∈ p.2, List.length v = 2)) ∧
    ∃ embs : List Vec,
      processImages [("a", some [1, 1]), ("b", some [3, 5])] =
        .ok embs (api_register (some "alice")
          [("a", some [1, 1]), ("b", some [3, 5])] "u1" ⟨[], 0, 0⟩).calls ∧
      2 ≤ embs.length ∧ embs.length ≤ 4 ∧
      (∀ v ∈ embs, v.length = 2) ∧
      ∃ r : Record,
        (api_register (some "alice") [("a", some [1, 1]), ("b", some [3, 5])]
          "u1" ⟨[], 0, 0⟩).state.store = ([] : List Record) ++ [r] ∧
        r.embedding = vecMean embs ∧
        r.embedding.length = 2 ∧
        ∀ j : Nat, r.embedding.getD j 0 = specElementwiseMean embs j :=
  ⟨⟨by decide, by decide⟩,
   api_register_signature_mean (some "alice")
     [("a", some [1, 1]), ("b", some [3, 5])] "u1" ⟨[], 0, 0⟩ "u1" "fr1" 2
     (by decide) (by decide)⟩

/-- C9: every successful enrollment call appends exactly one record to
the store — carrying the freshly supplied uuid and the newly allocated
label — and returns exactly that record's `(external_id, human_label)`
pair: the returned uuid is the generated one and the returned label is
the allocator's `"fr" + (counter + 1)`. -/
theorem api_register_one_record (name? : Option String)
    (files : List (String × Option Vec)) (uuid : String) (s : DBState)
    (u hl : String)
    (hsucc : (api_register name? files uuid s).result =
      RegResult.success u hl) :
    ∃ nm embs,
      name? = some nm ∧
      u = uuid ∧
      hl = "fr" ++ toString (s.meta.last_user_id + 1) ∧
      (api_register name? files uuid s).state.store =
        s.store ++ [⟨uuid, nm, hl, vecMean embs⟩] ∧
      (api_register name? files uuid s).state.store.length =
        s.store.length + 1 := by
  obtain ⟨nm, embs, calls, hname, hnm, hlo, hhi, hpi, h2, hu, hhl, heq⟩ :=
    api_register_success_inv name? files uuid s u hl hsucc
  refine ⟨nm, embs, hname, hu, hhl, ?_, ?_⟩
  · rw [heq]
  · rw [heq]
    simp

/-- Witness for C9 at a concrete successful enrollment. -/
theorem api_register_one_record_witness :
    (api_register (some "bob") [("a", some [0]), ("b", some [2])]
        "u2" ⟨[], 0, 0⟩).result = RegResult.success "u2" "fr1" ∧
    ∃ nm embs,
      (some "bob" : Option String) = some nm ∧
      "u2" = "u2" ∧
      "fr1" = "fr" ++ toString ((⟨[], 0, 0⟩ : DBState).meta.last_user_id + 1) ∧
      (api_register (some "bob") [("a", some [0]), ("b", some [2])]
          "u2" ⟨[], 0, 0⟩).state.store =
        (⟨[], 0, 0⟩ : DBState).store ++ [⟨"u2", nm, "fr1", vecMean embs⟩] ∧
      (api_register (some "bob") [("a", some [0]), ("b", some [2])]
          "u2" ⟨[], 0, 0⟩).state.store.length =
        (⟨[], 0, 0⟩ : DBState).store.length + 1 :=
  ⟨by decide,
   api_register_one_record (some "bob") [("a", some [0]), ("b", some [2])]
     "u2" ⟨[], 0, 0⟩ "u2" "fr1" (by decide)⟩

/-- The record `searchTop1` reports belongs to the store. -/
lemma searchTop1_mem (q : Vec) (store : List Record) (r : Record)
    (dist : ℚ) (hs : searchTop1 q store = some (r, dist)) : r ∈ store := by
  cases store with
  | nil => simp [searchTop1] at hs
  | cons a rs =>
    obtain ⟨r2, dist2, hs2, hmem, _, _⟩ := searchTop1_min q (a :: rs) (by simp)
    rw [hs] at hs2
    injection hs2 with hp
    have hr : r = r2 := congrArg Prod.fst hp
    rw [hr]
    exact hmem

/-- A match reported by `find_similar_user` carries the fields of some
stored record. -/
lemma find_similar_user_mem (emb : Vec) (t : ℚ) (store : List Record)
    (u n h : String) (d : ℚ)
    (hf : find_similar_user emb t store = some (u, n, h, d)) :
    ∃ r ∈ store, r.user_uuid = u ∧ r.name = n ∧ r.human_id = h := by
  cases hs : searchTop1 emb store with
  | none => simp [find_similar_user, hs] at hf
  | some p =>
    obtain ⟨r, dist⟩ := p
    simp only [find_similar_user, hs] at hf
    by_cases hd : dist < t
    · rw [if_pos hd] at hf
      injection hf with hf2
      simp only [Prod.mk.injEq] at hf2
      exact ⟨r, searchTop1_mem emb store r dist hs,
        hf2.1, hf2.2.1, hf2.2.2.1⟩
    · rw [if_neg hd] at hf
      exact absurd hf (by simp)

/-- Enrollment inserts only records with non-empty display names (it
rejects empty names), so stores reachable through the API satisfy the
hypothesis of the authentication-match theorem below. -/
lemma api_register_preserves_nonempty_names (name? : Option String)
    (files : List (String × Option Vec)) (uuid : String) (s : DBState)
    (hprev : ∀ r ∈ s.store, r.name ≠ "") :
    ∀ r ∈ (api_register name? files uuid s).state.store, r.name ≠ "" := by
  intro r hr
  cases name? with
  | none => exact hprev r hr
  | some nm =>
    by_cases hnm : nm = ""
    · subst hnm
      exact hprev r hr
    · by_cases hc : 2 ≤ files.length ∧ files.length ≤ 4
      · cases hpi : processImages files with
        | noFace fn cs =>
          have hst : (api_register (some nm) files uuid s).state = s := by
            simp only [api_register, if_neg hnm, if_pos hc, hpi]
          rw [hst] at hr
          exact hprev r hr
        | ok embs cs =>
          by_cases h2 : embs.length < 2
          · have hst : (api_register (some nm) files uuid s).state = s := by
              simp only [api_register, if_neg hnm, if_pos hc, hpi,
                if_pos h2]
            rw [hst] at hr
            exact hprev r hr
          · rw [api_register_success_eq nm files uuid s embs cs hnm hc.1
              hc.2 hpi (by omega)] at hr
            simp only at hr
            rcases List.mem_append.mp hr with h | h
            · exact hprev r h
            · rcases List.mem_singleton.mp h with rfl
              exact hnm
      · have hst : (api_register (some nm) files uuid s).state = s := by
          simp only [api_register, if_neg hnm, if_neg hc]
        rw [hst] at hr
        exact hprev r hr

/-- C8: if the nearest-neighbour search returns a match (for a store
whose records all carry non-empty display names, the invariant enrollment
maintains), the authentication response is `authenticated=true` and
carries exactly the matched record's external id, display name, human
label, and the numeric distance. -/
theorem api_authenticate_match (emb : Vec) (store : List Record)
    (u n h : String) (d : ℚ)
    (hinv : ∀ r ∈ store, r.name ≠ "")
    (hmatch : find_similar_user emb DISTANCE_THRESHOLD store =
      some (u, n, h, d)) :
    api_authenticate (some (some emb)) store =
      (AuthResult.authOk u n h d, true) := by
  obtain ⟨r, hr, hu, hn, hh⟩ :=
    find_similar_user_mem emb DISTANCE_THRESHOLD store u n h d hmatch
  have hnne : n ≠ "" := hn ▸ hinv r hr
  simp only [api_authenticate, hmatch, if_pos hnne]

/-- Witness for C8: a one-record store matched at distance 0. -/
theorem api_authenticate_match_witness :
    ((∀ r ∈ ([⟨"u1", "alice", "fr1", [0]⟩] : List Record), r.name ≠ "") ∧
     find_similar_user [0] DISTANCE_THRESHOLD [⟨"u1", "alice", "fr1", [0]⟩] =
       some ("u1", "alice", "fr1", 0)) ∧
    api_authenticate (some (some [0])) [⟨"u1", "alice", "fr1", [0]⟩] =
      (AuthResult.authOk "u1" "alice" "fr1" 0, true) :=
  ⟨⟨by decide,
    by simp [find_similar_user, searchTop1, d2, DISTANCE_THRESHOLD]⟩,
   api_authenticate_match [0] [⟨"u1", "alice", "fr1", [0]⟩]
     "u1" "alice" "fr1" 0 (by decide)
     (by simp [find_similar_user, searchTop1, d2, DISTANCE_THRESHOLD])⟩

/-- If every file with a non-empty filename yields an embedding, the image
loop succeeds. -/
lemma processImages_ok_of_all (files : List (String × Option Vec))
    (hall : ∀ p ∈ files, p.1 ≠ "" → p.2 ≠ none) :
    ∃ embs calls, processImages files = .ok embs calls := by
  cases hres : processImages files with
  | ok embs calls => exact ⟨embs, calls, rfl⟩
  | noFace fn calls =>
    obtain ⟨p, hp, _, h2, h3⟩ :=
      processImages_noFace_sound files fn calls hres
    exact absurd h3 (hall p hp h2)

/-- When every non-empty-filename file yields an embedding, the number of
collected embeddings equals the number of non-empty-filename files. -/
lemma filterMap_length_of_all :
    ∀ files : List (String × Option Vec),
    (∀ p ∈ files, p.1 ≠ "" → p.2 ≠ none) →
    (files.filterMap (fun p => if p.1 = "" then none else p.2)).length =
      (files.filter (fun p => p.1 ≠ "")).length := by
  intro files
  induction files with
  | nil => intro _; rfl
  | cons p rest ih =>
    intro hall
    have hrest : ∀ q ∈ rest, q.1 ≠ "" → q.2 ≠ none :=
      fun q hq => hall q (List.mem_cons_of_mem _ hq)
    obtain ⟨pfn, pe⟩ := p
    by_cases hempty : pfn = ""
    · simp [List.filterMap_cons, List.filter_cons, hempty, ih hrest]
    · cases pe with
      | none =>
        exact absurd rfl (hall (pfn, none) (List.mem_cons_self _ _) hempty)
      | some v =>
        simp [List.filterMap_cons, List.filter_cons, hempty, ih hrest]

/-- The concrete upload list refuting C10 as stated: one skipped
empty-filename file, two files yielding embeddings, one file yielding no
face. -/
def c10files : List (String × Option Vec) :=
  [("", none), ("a", some [1]), ("b", some [1]), ("c", none)]

/-- C10 counterexample: four uploads (within `[2,4]`), of which the
empty-filename one is skipped; at least 2 of the remaining files yield
embeddings, yet enrollment does not succeed: the remaining no-face file
aborts the whole call with `errNoFace "c"` (not the "fewer than 2 valid"
error either).  This refutes the claim that enrollment succeeds whenever
at least 2 of the remaining files yield embeddings. -/
theorem c10_counterexample :
    2 ≤ (c10files.filter (fun p => p.1 ≠ "" ∧ p.2.isSome)).length ∧
    2 ≤ c10files.length ∧ c10files.length ≤ 4 ∧
    (api_register (some "alice") c10files "u1" ⟨[], 0, 0⟩).result =
      RegResult.errNoFace "c" ∧
    (∀ u h, (api_register (some "alice") c10files "u1" ⟨[], 0, 0⟩).result ≠
      RegResult.success u h) ∧
    (api_register (some "alice") c10files "u1" ⟨[], 0, 0⟩).result ≠
      RegResult.errTooFew := by
  refine ⟨by decide, by decide, by decide, by decide, ?_, by decide⟩
  intro u h heq
  rw [show (api_register (some "alice") c10files "u1" ⟨[], 0, 0⟩).result =
    RegResult.errNoFace "c" from by decide] at heq
  exact RegResult.noConfusion heq

/-- C10 amended: with a valid name and 2–4 uploaded files:
empty-filename files are skipped without the adapter ever being invoked
on them (every adapter call has a non-empty filename), they count toward
the `[2,4]` validation (which is over all uploads) but not toward the
embeddings; and provided every remaining (non-empty-filename) file yields
an embedding, enrollment succeeds when at least 2 files remain and fails
with the "fewer than 2 valid" error when fewer than 2 remain. -/
theorem api_register_empty_filename_skip (nm uuid : String) (s : DBState)
    (files : List (String × Option Vec))
    (hnm : nm ≠ "") (hlo : 2 ≤ files.length) (hhi : files.length ≤ 4) :
    (∀ fn ∈ (api_register (some nm) files uuid s).calls, fn ≠ "") ∧
    ((∀ p ∈ files, p.1 ≠ "" → p.2 ≠ none) →
      (2 ≤ (files.filter (fun p => p.1 ≠ "")).length →
        ∃ u h, (api_register (some nm) files uuid s).result =
          RegResult.success u h) ∧
      ((files.filter (fun p => p.1 ≠ "")).length < 2 →
        (api_register (some nm) files uuid s).result =
          RegResult.errTooFew)) := by
  constructor
  · intro fn hfn
    cases hpi : processImages files with
    | noFace f cs =>
      have hcalls : (api_register (some nm) files uuid s).calls = cs := by
        simp only [api_register, if_neg hnm, if_pos (And.intro hlo hhi), hpi]
      rw [hcalls] at hfn
      have hcn := processImages_calls_nonempty files
      rw [hpi] at hcn
      exact hcn fn (by simpa [LoopResult.calls] using hfn)
    | ok embs cs =>
      have hcalls : (api_register (some nm) files uuid s).calls = cs := by
        simp only [api_register, if_neg hnm, if_pos (And.intro hlo hhi), hpi]
        by_cases h2 : embs.length < 2
        · rw [if_pos h2]
        · rw [if_neg h2]
      rw [hcalls] at hfn
      have hcn := processImages_calls_nonempty files
      rw [hpi] at hcn
      exact hcn fn (by simpa [LoopResult.calls] using hfn)
  · intro hall
    obtain ⟨embs, calls, hpi⟩ := processImages_ok_of_all files hall
    have hlen : embs.length = (files.filter (fun p => p.1 ≠ "")).length := by
      rw [processImages_ok_embs files embs calls hpi,
        filterMap_length_of_all files hall]
    constructor
    · intro h2
      have h2e : 2 ≤ embs.length := by omega
      rw [api_register_success_eq nm files uuid s embs calls hnm hlo hhi
        hpi h2e]
      exact ⟨uuid, _, rfl⟩
    · intro h2
      have h2e : embs.length < 2 := by omega
      simp only [api_register, if_neg hnm, if_pos (And.intro hlo hhi), hpi,
        if_pos h2e]

/-- Witness for the amended C10: three uploads, one with an empty
filename; the two remaining files both yield embeddings and enrollment
succeeds. -/
theorem api_register_empty_filename_skip_witness :
    ("x" ≠ "" ∧
     2 ≤ ([("", some [1]), ("a", some [1]), ("b", some [2])] :
        List (String × Option Vec)).length ∧
     ([("", some [1]), ("a", some [1]), ("b", some [2])] :
        List (String × Option Vec)).length ≤ 4) ∧
    ((∀ fn ∈ (api_register (some "x")
        [("", some [1]), ("a", some [1]), ("b", some [2])] "u1"
        ⟨[], 0, 0⟩).calls, fn ≠ "") ∧
     ((∀ p ∈ ([("", some [1]), ("a", some [1]), ("b", some [2])] :
          List (String × Option Vec)), p.1 ≠ "" → p.2 ≠ none) →
       (2 ≤ (([("", some [1]), ("a", some [1]), ("b", some [2])] :
            List (String × Option Vec)).filter
              (fun p => p.1 ≠ "")).length →
         ∃ u h, (api_register (some "x")
            [("", some [1]), ("a", some [1]), ("b", some [2])] "u1"
            ⟨[], 0, 0⟩).result = RegResult.success u h) ∧
       ((([("", some [1]), ("a", some [1]), ("b", some [2])] :
            List (String × Option Vec)).filter
              (fun p => p.1 ≠ "")).length < 2 →
         (api_register (some "x")
            [("", some [1]), ("a", some [1]), ("b", some [2])] "u1"
            ⟨[], 0, 0⟩).result = RegResult.errTooFew))) :=
  ⟨by decide,
   api_register_empty_filename_skip "x" "u1" ⟨[], 0, 0⟩
     [("", some [1]), ("a", some [1]), ("b", some [2])]
     (by decide) (by decide) (by decide)⟩
